import Mathlib

/-!
Shallow embedding of `packages/graphic-walker/src/utils/workflow.ts`.

The data model (fields, filter rules, expressions, workflow steps) and the
operations (`treeShake`, `createFilter`, `toWorkflow`, `addTransformForQuery`,
`addFilterForQuery`, `processExpression`) are translated from the TypeScript
source.  JavaScript objects used as dictionaries are modelled as association
lists (`List (Nat × String)` for paint dictionaries, `List (String × α)` for
the `Map` used by `deduper`), where a spread `{...d, k: v}` replaces the
binding for `k` in place (or appends it) and `Object.fromEntries` folds the
entry list left-to-right with the same replace-or-append semantics.  Machine
numbers that the source only compares for truthiness (`limit`) are modelled
as `Option Int` (absent = `undefined`).

Helpers imported from modules that are not part of the provided sources
(`getMeaAggKey`, `getFilterMeaAggKey`, the sentinel constants) are modelled
from the spec and marked as such in their doc comments.
-/

set_option autoImplicit false

/-- Analytic role of a field (`analyticType` in the source). -/
inductive AnalyticType where
  | dimension
  | measure
  deriving DecidableEq, Repr

/-- Sort direction argument of `toWorkflow` (`'none' | 'ascending' | 'descending'`). -/
inductive SortDir where
  | none
  | ascending
  | descending
  deriving DecidableEq, Repr

/-- The `IPaintMap` payload carried by a `map`-typed expression parameter.
`dict` maps a color key to the entry name (`{name: string}` objects are
modelled by their `name`); `usedColor` is the declared used-color list.
The remaining components (`x`, `y`, `domainX`, `domainY`, `map`,
`mapwidth`) are carried opaquely. -/
structure IPaintMapValue where
  x : String
  y : String
  domainX : List Int
  domainY : List Int
  map : String
  dict : List (Nat × String)
  usedColor : List Nat
  mapwidth : Nat
  deriving Repr

mutual
/-- An expression tree: an operator tag and an ordered parameter list. -/
inductive IExpression where
  | mk (op : String) (params : List IExpParam)

/-- An expression parameter, discriminated by `type` in the source:
`field` (a field reference), `expression` (a nested expression),
`map` (a paint payload), or any other literal parameter. -/
inductive IExpParam where
  | field (value : String)
  | expression (value : IExpression)
  | map (value : IPaintMapValue)
  | constant (value : String)
end

/-- The operator tag of an expression. -/
def IExpression.op : IExpression → String
  | .mk o _ => o

/-- The parameter list of an expression. -/
def IExpression.params : IExpression → List IExpParam
  | .mk _ ps => ps

/-- A computed-field definition `{key, expression}` as consumed by `treeShake`
and emitted in `transform` steps. -/
structure ComputedField where
  key : String
  expression : IExpression

/-- The slice of `IViewField` that `workflow.ts` reads: identifier, analytic
role, optional aggregation function, computed flag and optional expression. -/
structure ViewField where
  fid : String
  analyticType : AnalyticType
  aggName : Option String
  computed : Bool
  expression : Option IExpression

/-- A filter rule.  `range` bounds are already numeric and `temporal range`
bounds are already date-serial numbers in this embedding (the JS `Number` and
`Date(...).getTime()` coercions act as the identity on them); `unknown`
stands for any rule kind outside the four recognized ones. -/
inductive FilterRule where
  | oneOf (value : List Int)
  | notIn (value : List Int)
  | range (lo hi : Int)
  | temporalRange (lo hi : Int)
  | unknown (tag : String)

/-- The slice of `IFilterField` that `workflow.ts` reads. -/
structure IFilterField where
  fid : String
  rule : Option FilterRule
  computed : Bool
  enableAgg : Bool
  aggName : Option String

/-- A normalized filter `{fid, rule}` (`IVisFilter`). -/
structure IVisFilter where
  fid : String
  rule : FilterRule

/-- One aggregated measure of a `view` step:
`{field, agg, asFieldKey}`. -/
structure MeasureSpec where
  field : String
  agg : Option String
  asFieldKey : String

/-- The single operation of a `view` step: `aggregate` or `raw`. -/
inductive ViewQuery where
  | aggregate (groupBy : List String) (measures : List MeasureSpec)
  | raw (fields : List String)

/-- A workflow step (`IDataQueryWorkflowStep`). -/
inductive WorkflowStep where
  | filter (filters : List IVisFilter)
  | transform (transform : List ComputedField)
  | view (query : List ViewQuery)
  | sort (sortBy : List String) (dir : SortDir)

/-- The kind tag of a workflow step. -/
inductive StepKind where
  | filter
  | transform
  | view
  | sort
  deriving DecidableEq, Repr

/-- The kind of a step. -/
def kindOf : WorkflowStep → StepKind
  | .filter _ => .filter
  | .transform _ => .transform
  | .view _ => .view
  | .sort _ _ => .sort

/-- A query payload `{workflow, limit?}` (`IDataQueryPayload`). -/
structure IDataQueryPayload where
  workflow : List WorkflowStep
  limit : Option Int

/-- `x.type === 'transform'`. -/
def stepIsTransform : WorkflowStep → Bool
  | .transform _ => true
  | _ => false

/-- `x.type === 'filter'`. -/
def stepIsFilter : WorkflowStep → Bool
  | .filter _ => true
  | _ => false

/-- A `view` step whose query performs `aggregate`. -/
def stepIsAggView : WorkflowStep → Bool
  | .view q => q.any fun op => match op with | .aggregate _ _ => true | _ => false
  | _ => false

/-- A `view` step whose query performs `raw`. -/
def stepIsRawView : WorkflowStep → Bool
  | .view q => q.any fun op => match op with | .raw _ => true | _ => false
  | _ => false

/-- A `sort` step. -/
def stepIsSort : WorkflowStep → Bool
  | .sort _ _ => true
  | _ => false

/-! ### JavaScript object dictionaries (paint `dict`) -/

/-- Property read `d[k]` on an object modelled as an association list. -/
def objLookup (d : List (Nat × String)) (k : Nat) : Option String :=
  (d.find? fun p => p.1 = k).map (·.2)

/-- The object `{...d, k: v}`: the binding for `k` is replaced in place when
present, appended otherwise (JS objects have unique keys). -/
def objSet (d : List (Nat × String)) (k : Nat) (v : String) : List (Nat × String) :=
  if d.any (fun p => p.1 = k) then
    d.map fun p => if p.1 = k then (k, v) else p
  else
    d ++ [(k, v)]

/-- `Object.fromEntries`: fold the entry list into an object, later entries
overriding earlier ones with the same key. -/
def objFromEntries (es : List (Nat × String)) : List (Nat × String) :=
  es.foldl (fun acc e => objSet acc e.1 e.2) []

/-! ### Expression walking (`walkExpression`) -/

mutual
/-- All field identifiers referenced by an expression, in parameter order
(the callback of `walkExpression` collected into a list). -/
def exprFields : IExpression → List String
  | .mk _ params => paramsFields params

/-- Field references of a parameter list. -/
def paramsFields : List IExpParam → List String
  | [] => []
  | p :: ps => paramFields p ++ paramsFields ps

/-- Field references of one parameter. -/
def paramFields : IExpParam → List String
  | .field v => [v]
  | .expression e => exprFields e
  | .map _ => []
  | .constant _ => []
end

/-! ### Dependency pruner (`treeShake`) -/

/-- The `while (currentFields.length && rest.length)` loop of `treeShake`.
Each iteration collects the field references of `currentFields`, splits
`rest` on them, and continues; `result` is never touched by the loop (the
source never appends `nextFields` to `result`), so the loop has no effect
on the returned value.  The fuel argument bounds the iteration count; it is
irrelevant to the result (see `treeShakeAux_eq`). -/
def treeShakeAux : Nat → List ComputedField → List ComputedField →
    List ComputedField → List ComputedField
  | 0, _, _, result => result
  | fuel + 1, currentFields, rest, result =>
    if currentFields.length ≠ 0 ∧ rest.length ≠ 0 then
      let dependencies := (currentFields.map fun f => exprFields f.expression).flatten
      let nextFields := rest.filter fun f => f.key ∈ dependencies
      treeShakeAux fuel nextFields (rest.filter fun f => f.key ∉ dependencies) result
    else
      result

/-- `treeShake`: seed `result` with the definitions whose key is directly
used, then run the dependency loop (which, in this source, never extends
`result`). -/
def treeShake (computedFields : List ComputedField) (viewKeys : List String) :
    List ComputedField :=
  let usedFields := viewKeys
  let result := computedFields.filter fun f => f.key ∈ usedFields
  let rest := computedFields.filter fun f => f.key ∉ usedFields
  treeShakeAux (2 * computedFields.length + 2) result rest result

/-! ### Paint-expression compaction (`processExpression`) -/

/-- The entry name `dict[i].name` read by the compaction pass.  When `i` is
absent from `dict`, the source throws a TypeError (`.name` of `undefined`)
and aborts; the `none` branch below stands for that throwing path and lies
outside the modelled domain — every theorem about the compaction carries the
hypothesis that all used colors occur in the extended dictionary, so the
branch is never relied upon. -/
def compactPaintName (dict : List (Nat × String)) (i : Nat) : String :=
  match objLookup dict i with
  | some n => n
  | Option.none => ""

/-- The rewrite of a `map`-typed parameter value inside a `paint` expression:
extend the dictionary with the reserved entry `255 ↦ ""`, then rebuild it
from the `usedColor` keys.  The source's output object omits `usedColor`;
it is modelled as the empty list. -/
def compactPaintValue (v : IPaintMapValue) : IPaintMapValue :=
  let dict := objSet v.dict 255 ""
  { x := v.x
    y := v.y
    domainX := v.domainX
    domainY := v.domainY
    map := v.map
    dict := objFromEntries (v.usedColor.map fun i => (i, compactPaintName dict i))
    usedColor := []
    mapwidth := v.mapwidth }

/-- `processExpression`: for `paint` expressions, compact every `map`-typed
parameter; all other expressions pass through unchanged. -/
def processExpression (exp : IExpression) : IExpression :=
  match exp with
  | .mk op params =>
    if op = "paint" then
      .mk op (params.map fun x =>
        match x with
        | .map v => .map (compactPaintValue v)
        | other => other)
    else
      exp

/-! ### `deduper` and the raw-view `Set` -/

/-- `Map.set`: replace the value for an existing key in place, else append. -/
def mapSet {α : Type} (m : List (String × α)) (k : String) (v : α) :
    List (String × α) :=
  if m.any (fun p => p.1 = k) then
    m.map fun p => if p.1 = k then (k, v) else p
  else
    m ++ [(k, v)]

/-- `deduper`: insert every item into a `Map` keyed by `keyF` and return the
values (first-occurrence key order, last value wins). -/
def deduper {α : Type} (items : List α) (keyF : α → String) : List α :=
  (items.foldl (fun m x => mapSet m (keyF x) x) []).map (·.2)

mutual
/-- Structural equality test on expressions. -/
def beqExpr : IExpression → IExpression → Bool
  | .mk o1 p1, .mk o2 p2 => o1 == o2 && beqParams p1 p2

/-- Structural equality test on parameter lists. -/
def beqParams : List IExpParam → List IExpParam → Bool
  | [], [] => true
  | p :: ps, q :: qs => beqParam p q && beqParams ps qs
  | _, _ => false

/-- Structural equality test on parameters. -/
def beqParam : IExpParam → IExpParam → Bool
  | .field a, .field b => a == b
  | .expression a, .expression b => beqExpr a b
  | .map a, .map b =>
      a.x == b.x && a.y == b.y && a.domainX == b.domainX && a.domainY == b.domainY &&
      a.map == b.map && a.dict == b.dict && a.usedColor == b.usedColor &&
      a.mapwidth == b.mapwidth
  | .constant a, .constant b => a == b
  | _, _ => false
end

/-- Structural equality test on view fields (value-level analogue of the JS
object identity used by `new Set([...viewDimensions, ...viewMeasures])`;
value-equal duplicates collapse, which no claim observes). -/
def beqViewField (a b : ViewField) : Bool :=
  a.fid == b.fid &&
  decide (a.analyticType = b.analyticType) &&
  a.aggName == b.aggName &&
  a.computed == b.computed &&
  (match a.expression, b.expression with
   | some ea, some eb => beqExpr ea eb
   | none, none => true
   | _, _ => false)

/-- `[...new Set(xs)]`: keep the first occurrence of each element. -/
def dedupRefLike (xs : List ViewField) : List ViewField :=
  xs.foldl (fun acc x => if acc.any (fun y => beqViewField y x) then acc else acc ++ [x]) []

/-! ### Constants and key helpers from outside the provided sources -/

/-- Modelled from the spec: the reserved sentinel identifier for the
"folded key" placeholder column (`MEA_KEY_ID` from `constants.ts`, which is
not among the provided sources). -/
def MEA_KEY_ID : String := "gw_mea_key_fid"

/-- Modelled from the spec: the reserved sentinel identifier for the
"folded value" placeholder column (`MEA_VAL_ID` from `constants.ts`, which
is not among the provided sources). -/
def MEA_VAL_ID : String := "gw_mea_val_fid"

/-- Modelled from the spec: the composite output key of an aggregated
column, "formed from a field id and an aggregation function name"
(`getMeaAggKey` from `utils/index.ts`, which is not among the provided
sources); with no aggregation function the identifier is used as-is. -/
def getMeaAggKey (fid : String) (agg : Option String) : String :=
  match agg with
  | some a => fid ++ "_" ++ a
  | none => fid

/-- Modelled from the spec: the derived filter identifier, "composing the
filter's own field id with its aggregation function and `enableAgg` flag
when aggregation applies" (`getFilterMeaAggKey` from `utils/index.ts`,
which is not among the provided sources). -/
def getFilterMeaAggKey (f : IFilterField) : String :=
  if f.enableAgg then getMeaAggKey f.fid f.aggName else f.fid

/-! ### Filter normalization (`createFilter`) -/

/-- JS `Number(x)` on a bound that is already numeric in this embedding. -/
def toNumber (x : Int) : Int := x

/-- JS `new Date(x).getTime()` on a bound that is already a date-serial
number in this embedding. -/
def dateGetTime (x : Int) : Int := x

/-- `createFilter` (the value-level part; the `viewKeys.add(fid)` side
effect is threaded explicitly through `viewKeysOf`, and the
`console.error` diagnostic on the fallback branch is a side channel with
no value-level effect).  The source asserts `f.rule!`; call sites only
pass filters with a present rule, so the `none` default is unreachable
from `toWorkflow`. -/
def createFilter (f : IFilterField) : IVisFilter :=
  let fid := getFilterMeaAggKey f
  match (f.rule).getD (.unknown "missing") with
  | .oneOf v => ⟨fid, .oneOf v⟩
  | .temporalRange lo hi => ⟨fid, .temporalRange (dateGetTime lo) (dateGetTime hi)⟩
  | .notIn v => ⟨fid, .notIn v⟩
  | .range lo hi => ⟨fid, .range (toNumber lo) (toNumber hi)⟩
  | .unknown t => ⟨fid, .unknown t⟩

/-! ### Workflow assembly (`toWorkflow`)

The local `let` bindings of `toWorkflow` are hoisted to parameterized
definitions so that theorems can refer to them; `toWorkflow` itself
assembles the six step slots exactly as the source does. -/

/-- When both sentinels are present (`hasFold` truthy), the aggregation
function of the first measure with the folded-value sentinel id; `none`
when fold is not triggered. -/
def foldAggName (viewDimensionsRaw viewMeasuresRaw : List ViewField) :
    Option (Option String) :=
  match viewDimensionsRaw.find? (fun x => x.fid = MEA_KEY_ID),
        viewMeasuresRaw.find? (fun x => x.fid = MEA_VAL_ID) with
  | some _, some mv => some mv.aggName
  | _, _ => none

/-- The fields produced by fold expansion: every fold key resolved against
the known-field pool, cloned with the sentinel measure's aggregation
function.  (In the source an unresolved key spreads `undefined` into an
object whose `analyticType` is `undefined`, which the subsequent role
filters drop from both lists; dropping it here is equivalent.) -/
def foldNewFields (allFields : List ViewField) (folds : List String)
    (aggName : Option String) : List ViewField :=
  (folds.filterMap fun k => allFields.find? fun x => x.fid = k).map
    fun x => { x with aggName := aggName }

/-- `viewDimensions` after sentinel removal and fold expansion. -/
def viewDimensionsOf (allFields viewDimensionsRaw viewMeasuresRaw : List ViewField)
    (folds : List String) : List ViewField :=
  let dims0 := viewDimensionsRaw.filter fun x => x.fid ≠ MEA_KEY_ID
  match foldAggName viewDimensionsRaw viewMeasuresRaw with
  | some agg =>
      dims0 ++ (foldNewFields allFields folds agg).filter
        fun x => x.analyticType = AnalyticType.dimension
  | none => dims0

/-- `viewMeasures` after sentinel removal and fold expansion. -/
def viewMeasuresOf (allFields viewDimensionsRaw viewMeasuresRaw : List ViewField)
    (folds : List String) : List ViewField :=
  let meas0 := viewMeasuresRaw.filter fun x => x.fid ≠ MEA_VAL_ID
  match foldAggName viewDimensionsRaw viewMeasuresRaw with
  | some agg =>
      meas0 ++ (foldNewFields allFields folds agg).filter
        fun x => x.analyticType = AnalyticType.measure
  | none => meas0

/-- The filters of the first (pre-aggregation) filter batch:
`!f.computed && f.rule && !f.enableAgg`. -/
def rawFiltersOf (viewFilters : List IFilterField) : List IFilterField :=
  viewFilters.filter fun f => !f.computed && f.rule.isSome && !f.enableAgg

/-- The `viewKeys` set at the time `treeShake` reads it: the field ids of
dimensions, measures and filters, extended by the derived ids that the
first batch of `createFilter` calls adds. -/
def viewKeysOf (viewFilters : List IFilterField)
    (allFields viewDimensionsRaw viewMeasuresRaw : List ViewField)
    (folds : List String) : List String :=
  (viewDimensionsOf allFields viewDimensionsRaw viewMeasuresRaw folds ++
      viewMeasuresOf allFields viewDimensionsRaw viewMeasuresRaw folds).map (·.fid) ++
    viewFilters.map (·.fid) ++
    (rawFiltersOf viewFilters).map getFilterMeaAggKey

/-- The optional pre-aggregation `filter` step. -/
def filterWorkflowOf (viewFilters : List IFilterField) : Option WorkflowStep :=
  if ((rawFiltersOf viewFilters).map createFilter).length ≠ 0 then
    some (.filter ((rawFiltersOf viewFilters).map createFilter))
  else none

/-- The tree-shaken computed fields of the `transform` step. -/
def computedFieldsOf (viewFilters : List IFilterField)
    (allFields viewDimensionsRaw viewMeasuresRaw : List ViewField)
    (folds : List String) : List ComputedField :=
  treeShake
    ((allFields.filter fun f => f.computed && f.expression.isSome).map fun f =>
      ⟨f.fid, processExpression (f.expression.getD (.mk "" []))⟩)
    (viewKeysOf viewFilters allFields viewDimensionsRaw viewMeasuresRaw folds)

/-- The optional `transform` step. -/
def transformWorkflowOf (viewFilters : List IFilterField)
    (allFields viewDimensionsRaw viewMeasuresRaw : List ViewField)
    (folds : List String) : Option WorkflowStep :=
  if (computedFieldsOf viewFilters allFields viewDimensionsRaw viewMeasuresRaw folds).length ≠ 0 then
    some (.transform (computedFieldsOf viewFilters allFields viewDimensionsRaw viewMeasuresRaw folds))
  else none

/-- The filters of the post-transform batch: `f.computed && f.rule && !f.enableAgg`. -/
def computedFiltersOf (viewFilters : List IFilterField) : List IFilterField :=
  viewFilters.filter fun f => f.computed && f.rule.isSome && !f.enableAgg

/-- The optional post-transform `filter` step. -/
def computedWorkflowOf (viewFilters : List IFilterField) : Option WorkflowStep :=
  if ((computedFiltersOf viewFilters).map createFilter).length ≠ 0 then
    some (.filter ((computedFiltersOf viewFilters).map createFilter))
  else none

/-- `aggergatedFilter`: filters with `f.enableAgg && f.aggName && f.rule`. -/
def aggergatedFilterOf (viewFilters : List IFilterField) : List IFilterField :=
  viewFilters.filter fun f => f.enableAgg && f.aggName.isSome && f.rule.isSome

/-- `aggregateOn`: aggregated measure pairs drawn from the measures with an
aggregation function and the aggregation-scoped filters. -/
def aggregateOnOf (viewFilters : List IFilterField)
    (allFields viewDimensionsRaw viewMeasuresRaw : List ViewField)
    (folds : List String) : List (String × String) :=
  ((viewMeasuresOf allFields viewDimensionsRaw viewMeasuresRaw folds).filter
      fun f => f.aggName.isSome).map (fun f => (f.fid, f.aggName.getD "")) ++
    (aggergatedFilterOf viewFilters).map fun f => (f.fid, f.aggName.getD "")

/-- The `aggergated` decision:
`defaultAggregated && (aggregateOn.length || (viewMeasures.length === 0 && viewDimensions.length > 0))`. -/
def aggergatedOf (viewFilters : List IFilterField)
    (allFields viewDimensionsRaw viewMeasuresRaw : List ViewField)
    (folds : List String) (defaultAggregated : Bool) : Bool :=
  defaultAggregated &&
    (!(aggregateOnOf viewFilters allFields viewDimensionsRaw viewMeasuresRaw folds).isEmpty ||
      ((viewMeasuresOf allFields viewDimensionsRaw viewMeasuresRaw folds).isEmpty &&
        !(viewDimensionsOf allFields viewDimensionsRaw viewMeasuresRaw folds).isEmpty))

/-- `{field: f.fid, agg: f.aggName, asFieldKey: getMeaAggKey(f.fid, f.aggName)}`. -/
def toMeasureSpec (fid : String) (agg : Option String) : MeasureSpec :=
  ⟨fid, agg, getMeaAggKey fid agg⟩

/-- The (always present) `view` step: aggregate or raw. -/
def viewQueryWorkflowOf (viewFilters : List IFilterField)
    (allFields viewDimensionsRaw viewMeasuresRaw : List ViewField)
    (folds : List String) (defaultAggregated : Bool) : WorkflowStep :=
  let viewDimensions := viewDimensionsOf allFields viewDimensionsRaw viewMeasuresRaw folds
  let viewMeasures := viewMeasuresOf allFields viewDimensionsRaw viewMeasuresRaw folds
  if aggergatedOf viewFilters allFields viewDimensionsRaw viewMeasuresRaw folds defaultAggregated then
    .view [.aggregate
      (deduper (viewDimensions.map (·.fid)) id)
      (deduper
        ((viewMeasures.map fun f => toMeasureSpec f.fid f.aggName) ++
          (aggergatedFilterOf viewFilters).map fun f => toMeasureSpec f.fid f.aggName)
        (·.asFieldKey))]
  else
    .view [.raw ((dedupRefLike (viewDimensions ++ viewMeasures)).map (·.fid))]

/-- The optional post-aggregation `filter` step. -/
def aggFilterWorkflowOf (viewFilters : List IFilterField)
    (allFields viewDimensionsRaw viewMeasuresRaw : List ViewField)
    (folds : List String) (defaultAggregated : Bool) : Option WorkflowStep :=
  if aggergatedOf viewFilters allFields viewDimensionsRaw viewMeasuresRaw folds defaultAggregated &&
      !(viewDimensionsOf allFields viewDimensionsRaw viewMeasuresRaw folds).isEmpty &&
      !(aggergatedFilterOf viewFilters).isEmpty then
    some (.filter ((aggergatedFilterOf viewFilters).map createFilter))
  else
    none

/-- JS truthiness of `limit && limit !== -1` (`0`, `undefined` and `-1` are
the falsy/sentinel cases; the embedding has no `NaN`). -/
def limitTruthy : Option Int → Bool
  | Option.none => false
  | some l => decide (l ≠ 0) && decide (l ≠ -1)

/-- The optional `sort` step. -/
def sortWorkflowOf (viewFilters : List IFilterField)
    (allFields viewDimensionsRaw viewMeasuresRaw : List ViewField)
    (folds : List String) (defaultAggregated : Bool) (sort : SortDir)
    (limit : Option Int) : Option WorkflowStep :=
  if decide (sort ≠ SortDir.none) && limitTruthy limit then
    some (.sort
      ((viewMeasuresOf allFields viewDimensionsRaw viewMeasuresRaw folds).map fun f =>
        if aggergatedOf viewFilters allFields viewDimensionsRaw viewMeasuresRaw folds defaultAggregated
        then getMeaAggKey f.fid f.aggName else f.fid)
      sort)
  else
    none

/-- `toWorkflow`: the six step slots, with the empty ones dropped
(`[...].filter(Boolean)`). -/
def toWorkflow (viewFilters : List IFilterField)
    (allFields viewDimensionsRaw viewMeasuresRaw : List ViewField)
    (defaultAggregated : Bool) (sort : SortDir) (folds : List String)
    (limit : Option Int) : List WorkflowStep :=
  ([filterWorkflowOf viewFilters,
    transformWorkflowOf viewFilters allFields viewDimensionsRaw viewMeasuresRaw folds,
    computedWorkflowOf viewFilters,
    some (viewQueryWorkflowOf viewFilters allFields viewDimensionsRaw viewMeasuresRaw folds defaultAggregated),
    aggFilterWorkflowOf viewFilters allFields viewDimensionsRaw viewMeasuresRaw folds defaultAggregated,
    sortWorkflowOf viewFilters allFields viewDimensionsRaw viewMeasuresRaw folds defaultAggregated sort limit] :
      List (Option WorkflowStep)).filterMap id

/-! ### Workflow merge operations -/

/-- `addTransformForQuery`. -/
def addTransformForQuery (query : IDataQueryPayload)
    (transform : List ComputedField) : IDataQueryPayload :=
  if transform.length = 0 then query
  else
    match query.workflow.findIdx? stepIsTransform with
    | some existTransform =>
      { query with
        workflow := query.workflow.mapIdx fun i x =>
          match x with
          | .transform t =>
            if i = existTransform then
              .transform (t ++ transform.filter fun nt => !(t.any fun ot => ot.key = nt.key))
            else x
          | _ => x }
    | Option.none =>
      { query with workflow := .transform transform :: query.workflow }

/-- `addFilterForQuery`. -/
def addFilterForQuery (query : IDataQueryPayload)
    (filters : List IVisFilter) : IDataQueryPayload :=
  if filters.length = 0 then query
  else
    match query.workflow.findIdx? stepIsFilter with
    | some existFilter =>
      { query with
        workflow := query.workflow.mapIdx fun i x =>
          match x with
          | .filter fs =>
            if i = existFilter then .filter (filters ++ fs) else x
          | _ => x }
    | Option.none =>
      { query with workflow := .filter filters :: query.workflow }

/-! ### Concrete inputs used by counterexamples and witnesses -/

/-- An expression referencing the field `b`. -/
def exprRefB : IExpression := .mk "one" [.field "b"]

/-- An expression with no field references. -/
def exprConst : IExpression := .mk "one" [.constant "1"]

/-- A computed field `a` whose expression depends on `b`. -/
def cfA : ComputedField := ⟨"a", exprRefB⟩

/-- A computed field `b` with no dependencies. -/
def cfB : ComputedField := ⟨"b", exprConst⟩

/-- The paint map of §8's example: `usedColor=[1,2]`,
dictionary `{1:A, 2:B, 3:C}`. -/
def paintDemoValue : IPaintMapValue :=
  ⟨"px", "py", [], [], "m", [(1, "A"), (2, "B"), (3, "C")], [1, 2], 0⟩

/-- A paint expression holding `paintDemoValue` as its map parameter. -/
def paintDemoExpr : IExpression := .mk "paint" [.map paintDemoValue]

/-- A filter whose rule kind is unrecognized. -/
def fDemoUnknown : IFilterField := ⟨"price", some (.unknown "weird"), false, false, Option.none⟩

/-- Expression referencing `u`. -/
def eU : IExpression := .mk "one" [.field "u"]

/-- Expression referencing `w`. -/
def eW : IExpression := .mk "one" [.field "w"]

/-- A payload whose workflow already holds a transform step with key `x`. -/
def q0 : IDataQueryPayload := ⟨[.transform [⟨"x", eU⟩]], Option.none⟩

/-- The folded-key sentinel field. -/
def kSent : ViewField := ⟨MEA_KEY_ID, .dimension, Option.none, false, Option.none⟩

/-- The folded-value sentinel field carrying aggregation `sum`. -/
def vSent : ViewField := ⟨MEA_VAL_ID, .measure, some "sum", false, Option.none⟩

/-- The measure `revenue` of §8's fold example. -/
def revenueF : ViewField := ⟨"revenue", .measure, Option.none, false, Option.none⟩

/-- The dimension `cost` of §8's fold example. -/
def costF : ViewField := ⟨"cost", .dimension, Option.none, false, Option.none⟩

/-- The known-field pool of the fold example. -/
def allFdemo : List ViewField := [revenueF, costF]

/-- A dimension field whose identifier is the folded-value sentinel. -/
def dSentVal : ViewField := ⟨MEA_VAL_ID, .dimension, Option.none, false, Option.none⟩

/-- A benign dimension field. -/
def dOk : ViewField := ⟨"d", .dimension, Option.none, false, Option.none⟩

/-- A benign aggregated measure field. -/
def mOk : ViewField := ⟨"m", .measure, some "sum", false, Option.none⟩

/-! ### Helper lemmas -/

/-- The `treeShake` loop returns `result` unchanged, whatever the fuel:
the source never appends the computed dependency batches to `result`. -/
theorem treeShakeAux_eq (fuel : Nat) : ∀ c r res : List ComputedField,
    treeShakeAux fuel c r res = res := by
  induction fuel with
  | zero => intro c r res; rfl
  | succ n ih =>
    intro c r res
    rw [treeShakeAux]
    split
    · exact ih _ _ _
    · rfl

theorem filterMap_id_cons {α : Type} (o : Option α) (l : List (Option α)) :
    (o :: l).filterMap id = o.toList ++ l.filterMap id := by
  cases o <;> simp

/-- `toWorkflow` is the concatenation of its six slots. -/
theorem toWorkflow_decomp (vf : List IFilterField) (aF dR mR : List ViewField)
    (agg : Bool) (srt : SortDir) (folds : List String) (lim : Option Int) :
    toWorkflow vf aF dR mR agg srt folds lim =
      (filterWorkflowOf vf).toList ++
      (transformWorkflowOf vf aF dR mR folds).toList ++
      (computedWorkflowOf vf).toList ++
      [viewQueryWorkflowOf vf aF dR mR folds agg] ++
      (aggFilterWorkflowOf vf aF dR mR folds agg).toList ++
      (sortWorkflowOf vf aF dR mR folds agg srt lim).toList := by
  simp [toWorkflow, filterMap_id_cons, List.append_assoc]

theorem kindOf_filterWorkflowOf {vf : List IFilterField} {s : WorkflowStep}
    (h : filterWorkflowOf vf = some s) : kindOf s = StepKind.filter := by
  unfold filterWorkflowOf at h
  split at h
  · cases h; rfl
  · cases h

theorem kindOf_transformWorkflowOf {vf : List IFilterField}
    {aF dR mR : List ViewField} {folds : List String} {s : WorkflowStep}
    (h : transformWorkflowOf vf aF dR mR folds = some s) :
    kindOf s = StepKind.transform := by
  unfold transformWorkflowOf at h
  split at h
  · cases h; rfl
  · cases h

theorem kindOf_computedWorkflowOf {vf : List IFilterField} {s : WorkflowStep}
    (h : computedWorkflowOf vf = some s) : kindOf s = StepKind.filter := by
  unfold computedWorkflowOf at h
  split at h
  · cases h; rfl
  · cases h

theorem kindOf_aggFilterWorkflowOf {vf : List IFilterField}
    {aF dR mR : List ViewField} {folds : List String} {agg : Bool} {s : WorkflowStep}
    (h : aggFilterWorkflowOf vf aF dR mR folds agg = some s) :
    kindOf s = StepKind.filter := by
  unfold aggFilterWorkflowOf at h
  split at h
  · cases h; rfl
  · cases h

theorem kindOf_sortWorkflowOf {vf : List IFilterField}
    {aF dR mR : List ViewField} {folds : List String} {agg : Bool}
    {srt : SortDir} {lim : Option Int} {s : WorkflowStep}
    (h : sortWorkflowOf vf aF dR mR folds agg srt lim = some s) :
    kindOf s = StepKind.sort := by
  unfold sortWorkflowOf at h
  split at h
  · cases h; rfl
  · cases h

theorem kindOf_viewQueryWorkflowOf (vf : List IFilterField)
    (aF dR mR : List ViewField) (folds : List String) (agg : Bool) :
    kindOf (viewQueryWorkflowOf vf aF dR mR folds agg) = StepKind.view := by
  unfold viewQueryWorkflowOf
  split <;> rfl

theorem stepIsSort_eq_false {s : WorkflowStep} (h : kindOf s ≠ StepKind.sort) :
    stepIsSort s = false := by
  cases s <;> simp_all [kindOf, stepIsSort]

theorem stepIsSort_of_kind {s : WorkflowStep} (h : kindOf s = StepKind.sort) :
    stepIsSort s = true := by
  cases s <;> simp_all [kindOf, stepIsSort]

theorem stepIsAggView_eq_false {s : WorkflowStep} (h : kindOf s ≠ StepKind.view) :
    stepIsAggView s = false := by
  cases s <;> simp_all [kindOf, stepIsAggView]

theorem stepIsRawView_eq_false {s : WorkflowStep} (h : kindOf s ≠ StepKind.view) :
    stepIsRawView s = false := by
  cases s <;> simp_all [kindOf, stepIsRawView]

theorem any_toList_eq_false {p : WorkflowStep → Bool} {o : Option WorkflowStep}
    (h : ∀ s, o = some s → p s = false) : o.toList.any p = false := by
  cases o with
  | none => rfl
  | some s => simp [h s rfl]

theorem any_toList_eq_isSome {p : WorkflowStep → Bool} {o : Option WorkflowStep}
    (h : ∀ s, o = some s → p s = true) : o.toList.any p = o.isSome := by
  cases o with
  | none => rfl
  | some s => simp [h s rfl]

/-! ### C1: tree-shake drops transitive dependencies (code bug) -/

/-- C1: the Dependency Pruner is claimed to return every definition
transitively reachable from the used set via expression field-references.
On the pool `[a ↦ field-ref b, b ↦ constant]` with used set `{a}`, the
definition `b` is referenced by the kept definition `a`'s expression, yet
`treeShake` returns only `[a]`: the loop computes the dependency batches
but never appends them to `result`, so the transitive closure is dropped. -/
theorem treeShake_misses_transitive_dependency :
    treeShake [cfA, cfB] ["a"] = [cfA] ∧
    cfB ∈ ([cfA, cfB] : List ComputedField) ∧
    "b" ∈ exprFields cfA.expression ∧
    cfB.key = "b" ∧
    ∀ f ∈ treeShake [cfA, cfB] ["a"], f.key ≠ "b" := by
  have h : treeShake [cfA, cfB] ["a"] = [cfA] := by
    unfold treeShake
    rw [treeShakeAux_eq]
    rfl
  refine ⟨h, List.mem_cons_of_mem _ (List.mem_cons_self _ _), ?_, rfl, ?_⟩
  · simp [cfA, exprRefB, exprFields, paramsFields, paramFields]
  · rw [h]
    intro f hf
    rw [List.mem_singleton] at hf
    subst hf
    decide

/-! ### C5: merge operations are no-ops on empty input -/

/-- C5: for every query payload, `addTransformForQuery` and
`addFilterForQuery` applied to an empty list return the payload unchanged. -/
theorem merge_empty_noop (q : IDataQueryPayload) :
    addTransformForQuery q [] = q ∧ addFilterForQuery q [] = q :=
  ⟨rfl, rfl⟩

/-! ### C8: unknown filter-rule kinds pass through -/

/-- C8: for every filter whose rule kind is outside the four recognized
kinds, `createFilter` returns the rule unmodified, paired with the derived
field identifier; being a total function, it never aborts the workflow
build (the `console.error` diagnostic is a side channel with no
value-level effect). -/
theorem createFilter_unknown_rule_passthrough (f : IFilterField) (t : String)
    (h : f.rule = some (FilterRule.unknown t)) :
    createFilter f = ⟨getFilterMeaAggKey f, FilterRule.unknown t⟩ := by
  unfold createFilter
  rw [h]
  rfl

/-- Witness for C8 at a concrete unrecognized rule. -/
theorem createFilter_unknown_rule_passthrough_witness :
    createFilter fDemoUnknown = ⟨getFilterMeaAggKey fDemoUnknown, FilterRule.unknown "weird"⟩ :=
  createFilter_unknown_rule_passthrough fDemoUnknown "weird" rfl

/-! ### C2: paint compaction -/

/-- Reading the head of an association list. -/
theorem objLookup_cons (p : Nat × String) (d : List (Nat × String)) (j : Nat) :
    objLookup (p :: d) j = if p.1 = j then some p.2 else objLookup d j := by
  unfold objLookup
  by_cases hpj : p.1 = j
  · rw [List.find?_cons_of_pos _ (by simp [hpj]), if_pos hpj]
    rfl
  · rw [List.find?_cons_of_neg _ (by simp [hpj]), if_neg hpj]

theorem objLookup_append (d e : List (Nat × String)) (j : Nat) :
    objLookup (d ++ e) j =
      match objLookup d j with
      | some x => some x
      | Option.none => objLookup e j := by
  induction d with
  | nil => rw [List.nil_append]; rfl
  | cons p d ih =>
    rw [List.cons_append, objLookup_cons, objLookup_cons]
    by_cases hp : p.1 = j
    · rw [if_pos hp, if_pos hp]
    · rw [if_neg hp, if_neg hp]; exact ih

theorem objLookup_eq_none (d : List (Nat × String)) (k : Nat)
    (hd : ¬(d.any fun p => p.1 = k) = true) : objLookup d k = Option.none := by
  induction d with
  | nil => rfl
  | cons p d ih =>
    rw [objLookup_cons]
    have hp : ¬ p.1 = k := fun hh => hd (by simp [List.any_cons, hh])
    rw [if_neg hp]
    exact ih fun h2 => hd (by simp [List.any_cons, h2])

theorem objLookup_map_key (d : List (Nat × String)) (k : Nat) (v : String)
    (hd : (d.any fun p => p.1 = k) = true) :
    objLookup (d.map fun p => if p.1 = k then (k, v) else p) k = some v := by
  induction d with
  | nil => simp at hd
  | cons p d ih =>
    rw [List.map_cons]
    by_cases hp : p.1 = k
    · rw [if_pos hp, objLookup_cons, if_pos rfl]
    · rw [if_neg hp, objLookup_cons, if_neg hp]
      apply ih
      simp only [List.any_cons, hp, decide_False, Bool.false_or] at hd
      exact hd

theorem objLookup_map_not_key (d : List (Nat × String)) (k : Nat) (v : String)
    (j : Nat) (hj : j ≠ k) :
    objLookup (d.map fun p => if p.1 = k then (k, v) else p) j = objLookup d j := by
  induction d with
  | nil => rfl
  | cons p d ih =>
    rw [List.map_cons]
    by_cases hp : p.1 = k
    · rw [if_pos hp, objLookup_cons, objLookup_cons,
        if_neg (by simp; exact Ne.symm hj), if_neg (by rw [hp]; exact Ne.symm hj)]
      exact ih
    · rw [if_neg hp, objLookup_cons, objLookup_cons]
      by_cases hpj : p.1 = j
      · rw [if_pos hpj, if_pos hpj]
      · rw [if_neg hpj, if_neg hpj]; exact ih

/-- Reading key `j` after `{...d, k: v}`. -/
theorem objLookup_objSet (d : List (Nat × String)) (k : Nat) (v : String) (j : Nat) :
    objLookup (objSet d k v) j = if j = k then some v else objLookup d j := by
  unfold objSet
  split
  · rename_i hd
    by_cases hj : j = k
    · subst hj; rw [if_pos rfl]; exact objLookup_map_key d j v hd
    · rw [if_neg hj]; exact objLookup_map_not_key d k v j hj
  · rename_i hd
    rw [objLookup_append]
    by_cases hj : j = k
    · subst hj
      rw [objLookup_eq_none d j hd, if_pos rfl]
      rw [objLookup_cons, if_pos rfl]
    · rw [if_neg hj]
      cases hx : objLookup d j with
      | some x => rfl
      | none =>
        rw [objLookup_cons, if_neg fun hh => hj hh.symm]
        rfl

/-- Looking up `Object.fromEntries` over pairs `(i, f i)`: the result holds
exactly the listed keys, each mapped through `f`. -/
theorem objLookup_fromEntries (f : Nat → String) (ks : List Nat) (k : Nat) :
    objLookup (objFromEntries (ks.map fun i => (i, f i))) k =
      if k ∈ ks then some (f k) else Option.none := by
  have haux : ∀ (ks : List Nat) (acc : List (Nat × String)),
      objLookup (ks.foldl (fun a i => objSet a i (f i)) acc) k =
        if k ∈ ks then some (f k) else objLookup acc k := by
    intro ks
    induction ks with
    | nil => intro acc; simp
    | cons i ks ih =>
      intro acc
      rw [List.foldl_cons, ih]
      by_cases hks : k ∈ ks
      · rw [if_pos hks, if_pos (List.mem_cons_of_mem _ hks)]
      · rw [if_neg hks, objLookup_objSet]
        by_cases hki : k = i
        · rw [if_pos hki, if_pos (by rw [hki]; exact List.mem_cons_self _ _), hki]
        · rw [if_neg hki, if_neg (by simp [hki, hks])]
  unfold objFromEntries
  rw [List.foldl_map]
  exact haux ks []

/-- C2 (amended): for a `paint` expression whose used colors all occur in
the dictionary extended with the reserved entry `255 ↦ ""` (otherwise the
source throws reading `dict[i].name` of `undefined` and never produces a
dictionary), `processExpression` rewrites each `map`-typed parameter with
`compactPaintValue`, whose dictionary holds exactly the keys of
`usedColor`, each mapped to its name in that extended dictionary; a key
outside `usedColor` — including the reserved key `255` itself — is absent
from the output. -/
theorem paint_compaction_dict_amended (e : IExpression) (v : IPaintMapValue)
    (hop : e.op = "paint") (hmem : IExpParam.map v ∈ e.params)
    (hdom : ∀ i ∈ v.usedColor, (objLookup (objSet v.dict 255 "") i).isSome = true) :
    IExpParam.map (compactPaintValue v) ∈ (processExpression e).params ∧
    ∀ k : Nat, objLookup (compactPaintValue v).dict k =
      if k ∈ v.usedColor then objLookup (objSet v.dict 255 "") k
      else Option.none := by
  constructor
  · cases e with
    | mk op params =>
      have hop' : op = "paint" := hop
      subst hop'
      show IExpParam.map (compactPaintValue v) ∈
        List.map (fun x => match x with
          | IExpParam.map v => IExpParam.map (compactPaintValue v)
          | other => other) params
      exact List.mem_map_of_mem _ hmem
  · intro k
    have hshow : objLookup (compactPaintValue v).dict k =
        objLookup (objFromEntries (v.usedColor.map fun i =>
          (i, compactPaintName (objSet v.dict 255 "") i))) k := rfl
    rw [hshow,
      objLookup_fromEntries (fun i => compactPaintName (objSet v.dict 255 "") i)
        v.usedColor k]
    by_cases hk : k ∈ v.usedColor
    · rw [if_pos hk, if_pos hk]
      rcases Option.isSome_iff_exists.mp (hdom k hk) with ⟨n, hn⟩
      unfold compactPaintName
      rw [hn]
    · rw [if_neg hk, if_neg hk]

/-- Witness for C2's amended statement at §8's concrete example (whose used
colors `1` and `2` are both dictionary keys). -/
theorem paint_compaction_dict_amended_witness :
    IExpParam.map (compactPaintValue paintDemoValue) ∈ (processExpression paintDemoExpr).params ∧
    objLookup (compactPaintValue paintDemoValue).dict 1 = some "A" ∧
    objLookup (compactPaintValue paintDemoValue).dict 3 = Option.none := by
  have h := paint_compaction_dict_amended paintDemoExpr paintDemoValue rfl
    (by unfold paintDemoExpr IExpression.params; exact List.mem_cons_self _ _)
    (by decide)
  refine ⟨h.1, ?_, ?_⟩
  · have h1 := h.2 1
    rw [if_pos (by decide)] at h1
    exact h1.trans (by rfl)
  · have h3 := h.2 3
    rw [if_neg (by decide)] at h3
    exact h3

/-- C2, as stated, is false: on §8's own example (`usedColor=[1,2]`,
dictionary `{1:A, 2:B, 3:C}`) the output dictionary of the compaction pass
is exactly `{1:A, 2:B}` — the reserved entry `255` is **not** injected into
the output (it only extends the lookup dictionary), so the claimed output
`{1:A, 2:B, 255:""}` is wrong. -/
theorem paint_compaction_example_counterexample :
    processExpression paintDemoExpr =
      .mk "paint" [.map (compactPaintValue paintDemoValue)] ∧
    (compactPaintValue paintDemoValue).dict = [(1, "A"), (2, "B")] ∧
    objLookup (compactPaintValue paintDemoValue).dict 255 = Option.none := by
  refine ⟨rfl, rfl, rfl⟩

/-! ### C3, C4, C7: step presence and order in `toWorkflow` -/

theorem any_sort_toWorkflow (vf : List IFilterField) (aF dR mR : List ViewField)
    (agg : Bool) (srt : SortDir) (folds : List String) (lim : Option Int) :
    (toWorkflow vf aF dR mR agg srt folds lim).any stepIsSort =
      (sortWorkflowOf vf aF dR mR folds agg srt lim).isSome := by
  rw [toWorkflow_decomp]
  simp only [List.any_append]
  rw [any_toList_eq_false fun s h =>
      stepIsSort_eq_false (by rw [kindOf_filterWorkflowOf h]; decide),
    any_toList_eq_false fun s h =>
      stepIsSort_eq_false (by rw [kindOf_transformWorkflowOf h]; decide),
    any_toList_eq_false fun s h =>
      stepIsSort_eq_false (by rw [kindOf_computedWorkflowOf h]; decide),
    any_toList_eq_false fun s h =>
      stepIsSort_eq_false (by rw [kindOf_aggFilterWorkflowOf h]; decide),
    any_toList_eq_isSome fun s h => stepIsSort_of_kind (kindOf_sortWorkflowOf h)]
  simp [stepIsSort_eq_false
    (by rw [kindOf_viewQueryWorkflowOf]; decide :
      kindOf (viewQueryWorkflowOf vf aF dR mR folds agg) ≠ StepKind.sort)]

theorem sortWorkflowOf_isSome_iff (vf : List IFilterField) (aF dR mR : List ViewField)
    (folds : List String) (agg : Bool) (srt : SortDir) (lim : Option Int) :
    (sortWorkflowOf vf aF dR mR folds agg srt lim).isSome = true ↔
      (srt ≠ SortDir.none ∧ ∃ l, lim = some l ∧ l ≠ 0 ∧ l ≠ -1) := by
  unfold sortWorkflowOf
  split
  · rename_i hcond
    simp only [Option.isSome_some, true_iff]
    rw [Bool.and_eq_true, decide_eq_true_eq] at hcond
    refine ⟨hcond.1, ?_⟩
    have h2 := hcond.2
    cases lim with
    | none => exact absurd h2 (by simp [limitTruthy])
    | some l =>
      rw [limitTruthy, Bool.and_eq_true, decide_eq_true_eq, decide_eq_true_eq] at h2
      exact ⟨l, rfl, h2.1, h2.2⟩
  · rename_i hcond
    simp only [Option.isSome_none]
    constructor
    · intro h; exact (Bool.false_ne_true h).elim
    · rintro ⟨h1, l, rfl, h2, h3⟩
      have hc : (decide (srt ≠ SortDir.none) && limitTruthy (some l)) = true := by
        rw [Bool.and_eq_true, decide_eq_true_eq]
        exact ⟨h1, by simp [limitTruthy, h2, h3]⟩
      exact (hcond hc).elim

/-- C4 (amended): a sort step is present in the output workflow iff the
sort direction is not `none` and the limit is a *specified* number other
than `0` and the "unlimited" sentinel `-1` (JS truthiness) — not
necessarily a positive one. -/
theorem toWorkflow_sort_step_iff (vf : List IFilterField) (aF dR mR : List ViewField)
    (agg : Bool) (srt : SortDir) (folds : List String) (lim : Option Int) :
    (toWorkflow vf aF dR mR agg srt folds lim).any stepIsSort = true ↔
      (srt ≠ SortDir.none ∧ ∃ l, lim = some l ∧ l ≠ 0 ∧ l ≠ -1) := by
  rw [any_sort_toWorkflow]
  exact sortWorkflowOf_isSome_iff vf aF dR mR folds agg srt lim

/-- C4, as stated, is false: with direction `ascending` and limit `-2`
(not a positive finite number) the workflow does contain a sort step. -/
theorem sort_step_negative_limit_counterexample :
    (toWorkflow [] [] [] [] true SortDir.ascending [] (some (-2))).any stepIsSort = true ∧
    ¬ (0 : Int) < -2 := by
  refine ⟨rfl, by decide⟩

theorem any_aggView_toWorkflow (vf : List IFilterField) (aF dR mR : List ViewField)
    (agg : Bool) (srt : SortDir) (folds : List String) (lim : Option Int) :
    (toWorkflow vf aF dR mR agg srt folds lim).any stepIsAggView =
      aggergatedOf vf aF dR mR folds agg := by
  rw [toWorkflow_decomp]
  simp only [List.any_append]
  rw [any_toList_eq_false fun s h =>
      stepIsAggView_eq_false (by rw [kindOf_filterWorkflowOf h]; decide),
    any_toList_eq_false fun s h =>
      stepIsAggView_eq_false (by rw [kindOf_transformWorkflowOf h]; decide),
    any_toList_eq_false fun s h =>
      stepIsAggView_eq_false (by rw [kindOf_computedWorkflowOf h]; decide),
    any_toList_eq_false fun s h =>
      stepIsAggView_eq_false (by rw [kindOf_aggFilterWorkflowOf h]; decide),
    any_toList_eq_false fun s h =>
      stepIsAggView_eq_false (by rw [kindOf_sortWorkflowOf h]; decide)]
  have hview : stepIsAggView (viewQueryWorkflowOf vf aF dR mR folds agg) =
      aggergatedOf vf aF dR mR folds agg := by
    unfold viewQueryWorkflowOf
    split
    · rename_i hc; rw [hc]; rfl
    · rename_i hc; rw [Bool.not_eq_true] at hc; rw [hc]; rfl
  simp [hview]

theorem any_rawView_toWorkflow (vf : List IFilterField) (aF dR mR : List ViewField)
    (agg : Bool) (srt : SortDir) (folds : List String) (lim : Option Int) :
    (toWorkflow vf aF dR mR agg srt folds lim).any stepIsRawView =
      !aggergatedOf vf aF dR mR folds agg := by
  rw [toWorkflow_decomp]
  simp only [List.any_append]
  rw [any_toList_eq_false fun s h =>
      stepIsRawView_eq_false (by rw [kindOf_filterWorkflowOf h]; decide),
    any_toList_eq_false fun s h =>
      stepIsRawView_eq_false (by rw [kindOf_transformWorkflowOf h]; decide),
    any_toList_eq_false fun s h =>
      stepIsRawView_eq_false (by rw [kindOf_computedWorkflowOf h]; decide),
    any_toList_eq_false fun s h =>
      stepIsRawView_eq_false (by rw [kindOf_aggFilterWorkflowOf h]; decide),
    any_toList_eq_false fun s h =>
      stepIsRawView_eq_false (by rw [kindOf_sortWorkflowOf h]; decide)]
  have hview : stepIsRawView (viewQueryWorkflowOf vf aF dR mR folds agg) =
      !aggergatedOf vf aF dR mR folds agg := by
    unfold viewQueryWorkflowOf
    split
    · rename_i hc; rw [hc]; rfl
    · rename_i hc; rw [Bool.not_eq_true] at hc; rw [hc]; rfl
  simp [hview]

theorem aggergatedOf_iff (vf : List IFilterField) (aF dR mR : List ViewField)
    (folds : List String) (agg : Bool) :
    aggergatedOf vf aF dR mR folds agg = true ↔
      (agg = true ∧
        (((viewMeasuresOf aF dR mR folds).filter (fun f => f.aggName.isSome) ≠ [] ∨
          aggergatedFilterOf vf ≠ []) ∨
         (viewMeasuresOf aF dR mR folds = [] ∧ viewDimensionsOf aF dR mR folds ≠ []))) := by
  unfold aggergatedOf aggregateOnOf
  simp only [Bool.and_eq_true, Bool.or_eq_true, Bool.not_eq_true', Bool.eq_false_iff,
    ne_eq, List.isEmpty_iff, List.append_eq_nil, List.map_eq_nil_iff]
  tauto

/-- C3: the emitted view step performs `aggregate` iff `defaultAggregated`
is true AND (the measures carrying an aggregation function together with
the aggregation-scoped filters form a non-empty set, OR there are zero view
measures and at least one view dimension); otherwise it performs `raw`. -/
theorem toWorkflow_aggregate_iff (vf : List IFilterField) (aF dR mR : List ViewField)
    (agg : Bool) (srt : SortDir) (folds : List String) (lim : Option Int) :
    ((toWorkflow vf aF dR mR agg srt folds lim).any stepIsAggView = true ↔
      (agg = true ∧
        (((viewMeasuresOf aF dR mR folds).filter (fun f => f.aggName.isSome) ≠ [] ∨
          aggergatedFilterOf vf ≠ []) ∨
         (viewMeasuresOf aF dR mR folds = [] ∧ viewDimensionsOf aF dR mR folds ≠ [])))) ∧
    ((toWorkflow vf aF dR mR agg srt folds lim).any stepIsRawView = true ↔
      ¬ (agg = true ∧
        (((viewMeasuresOf aF dR mR folds).filter (fun f => f.aggName.isSome) ≠ [] ∨
          aggergatedFilterOf vf ≠ []) ∨
         (viewMeasuresOf aF dR mR folds = [] ∧ viewDimensionsOf aF dR mR folds ≠ [])))) := by
  constructor
  · rw [any_aggView_toWorkflow]
    exact aggergatedOf_iff vf aF dR mR folds agg
  · rw [any_rawView_toWorkflow, Bool.not_eq_true', Bool.eq_false_iff, ne_eq]
    exact not_congr (aggergatedOf_iff vf aF dR mR folds agg)

theorem toList_map_kind_sublist (o : Option WorkflowStep) (k : StepKind)
    (h : ∀ s, o = some s → kindOf s = k) :
    List.Sublist (o.toList.map kindOf) [k] := by
  cases o with
  | none => simp
  | some s =>
    simp only [Option.toList_some, List.map_cons, List.map_nil, h s rfl]
    exact List.Sublist.refl _

/-- C7: the step kinds of any produced workflow appear in (at most) the
fixed relative order pre-aggregation filter, transform, post-transform
filter, view, post-aggregation filter, sort — absent slots are dropped
without disturbing the rest. -/
theorem toWorkflow_step_order (vf : List IFilterField) (aF dR mR : List ViewField)
    (agg : Bool) (srt : SortDir) (folds : List String) (lim : Option Int) :
    List.Sublist ((toWorkflow vf aF dR mR agg srt folds lim).map kindOf)
      [StepKind.filter, StepKind.transform, StepKind.filter, StepKind.view,
       StepKind.filter, StepKind.sort] := by
  rw [toWorkflow_decomp]
  simp only [List.map_append]
  have h1 := toList_map_kind_sublist (filterWorkflowOf vf) StepKind.filter
    fun s h => kindOf_filterWorkflowOf h
  have h2 := toList_map_kind_sublist (transformWorkflowOf vf aF dR mR folds)
    StepKind.transform fun s h => kindOf_transformWorkflowOf h
  have h3 := toList_map_kind_sublist (computedWorkflowOf vf) StepKind.filter
    fun s h => kindOf_computedWorkflowOf h
  have h4 : List.Sublist ([viewQueryWorkflowOf vf aF dR mR folds agg].map kindOf)
      [StepKind.view] := by
    simp only [List.map_cons, List.map_nil, kindOf_viewQueryWorkflowOf]
    exact List.Sublist.refl _
  have h5 := toList_map_kind_sublist (aggFilterWorkflowOf vf aF dR mR folds agg)
    StepKind.filter fun s h => kindOf_aggFilterWorkflowOf h
  have h6 := toList_map_kind_sublist (sortWorkflowOf vf aF dR mR folds agg srt lim)
    StepKind.sort fun s h => kindOf_sortWorkflowOf h
  exact ((((h1.append h2).append h3).append h4).append h5).append h6

/-! ### C6: merging transforms into an existing workflow -/

theorem mapIdx_eq_of_ptwise {α : Type} (l : List α) (f : Nat → α → α)
    (h : ∀ j x, l[j]? = some x → f j x = x) : l.mapIdx f = l := by
  induction l generalizing f with
  | nil => rfl
  | cons a t ih =>
    rw [List.mapIdx_cons]
    rw [h 0 a (by simp)]
    congr 1
    exact ih _ fun j x hx => h (j + 1) x (by rw [List.getElem?_cons_succ]; exact hx)

theorem mapIdx_eq_set {α : Type} (l : List α) (f : Nat → α → α) (i : Nat) (y : α)
    (h : ∀ j x, l[j]? = some x → f j x = if j = i then y else x) :
    l.mapIdx f = l.set i y := by
  induction l generalizing f i with
  | nil => rfl
  | cons a t ih =>
    rw [List.mapIdx_cons]
    cases i with
    | zero =>
      rw [List.set_cons_zero]
      have h0 := h 0 a (by simp)
      rw [if_pos rfl] at h0
      rw [h0]
      congr 1
      apply mapIdx_eq_of_ptwise
      intro j x hx
      have hx' := h (j + 1) x (by rw [List.getElem?_cons_succ]; exact hx)
      rw [if_neg (by omega)] at hx'
      exact hx'
    | succ n =>
      rw [List.set_cons_succ]
      have h0 := h 0 a (by simp)
      rw [if_neg (by omega)] at h0
      rw [h0]
      congr 1
      apply ih
      intro j x hx
      have hx' := h (j + 1) x (by rw [List.getElem?_cons_succ]; exact hx)
      by_cases hj : j = n
      · subst hj
        rw [if_pos rfl] at hx'
        rw [if_pos rfl]
        exact hx'
      · rw [if_neg (by omega)] at hx'
        rw [if_neg hj]
        exact hx'

/-- C6: merging a non-empty transform list: when the workflow has a
transform step (the first one, at index `i` with content `t`),
`addTransformForQuery` replaces exactly that step, appending only the new
entries whose key is not already present (append order preserved), and the
entry count of any key already present stays what it was in `t` (the
original entry wins); when no transform step exists, a new transform step
holding exactly the new list is prepended ahead of all other steps. -/
theorem addTransformForQuery_merge_spec (q : IDataQueryPayload) (ts : List ComputedField)
    (hts : ts ≠ []) :
    (q.workflow.findIdx? stepIsTransform = Option.none →
      addTransformForQuery q ts = { q with workflow := .transform ts :: q.workflow }) ∧
    (∀ i t, q.workflow.findIdx? stepIsTransform = some i →
      q.workflow[i]? = some (.transform t) →
      (addTransformForQuery q ts).workflow =
        q.workflow.set i
          (.transform (t ++ ts.filter fun nt => !(t.any fun ot => ot.key = nt.key))) ∧
      ∀ k, (t.any fun ot => ot.key = k) = true →
        ((t ++ ts.filter fun nt => !(t.any fun ot => ot.key = nt.key)).countP
            fun e => e.key = k) =
          t.countP fun e => e.key = k) := by
  have hlen : ¬ ts.length = 0 := by simpa [List.length_eq_zero] using hts
  constructor
  · intro hnone
    unfold addTransformForQuery
    rw [if_neg hlen, hnone]
  · intro i t hidx hget
    constructor
    · unfold addTransformForQuery
      rw [if_neg hlen, hidx]
      apply mapIdx_eq_set
      intro j x hx
      by_cases hj : j = i
      · subst hj
        obtain rfl : WorkflowStep.transform t = x := Option.some.inj (hget.symm.trans hx)
        simp
      · cases x <;> simp [hj]
    · intro k hk
      rw [List.countP_append]
      have hz : (ts.filter fun nt => !(t.any fun ot => ot.key = nt.key)).countP
          (fun e => e.key = k) = 0 := by
        rw [List.countP_eq_zero]
        intro a ha
        have hfa := (List.mem_filter.mp ha).2
        rw [Bool.not_eq_true'] at hfa
        intro hak
        rw [decide_eq_true_eq] at hak
        rw [hak] at hfa
        rw [hfa] at hk
        exact Bool.false_ne_true hk
      rw [hz, Nat.add_zero]

/-- Witness for C6: merging key `x` into a workflow whose transform step
already holds key `x` leaves the step unchanged up to the (empty) filtered
append, and the entry count for `x` stays 1. -/
theorem addTransformForQuery_merge_spec_witness :
    (addTransformForQuery q0 [⟨"x", eW⟩]).workflow =
      q0.workflow.set 0 (.transform (([⟨"x", eU⟩] : List ComputedField) ++
        ([⟨"x", eW⟩] : List ComputedField).filter fun nt =>
          !(([⟨"x", eU⟩] : List ComputedField).any fun ot => ot.key = nt.key))) ∧
    ((([⟨"x", eU⟩] : List ComputedField) ++
        ([⟨"x", eW⟩] : List ComputedField).filter fun nt =>
          !(([⟨"x", eU⟩] : List ComputedField).any fun ot => ot.key = nt.key)).countP
        fun e => e.key = "x") =
      (([⟨"x", eU⟩] : List ComputedField).countP fun e => e.key = "x") := by
  have h := (addTransformForQuery_merge_spec q0 [⟨"x", eW⟩]
    (by simp)).2 0 [⟨"x", eU⟩] rfl rfl
  exact ⟨h.1, h.2 "x" rfl⟩

/-! ### C9: fold expansion -/

/-- C9: when both sentinels are present, fold expansion removes the folded
key from the dimension list and the folded value from the measure list,
and every fold identifier that resolves in the known-field pool enters the
dimension or measure list as a clone carrying the sentinel measure's
aggregation function, according to its own analytic role. -/
theorem toWorkflow_fold_expansion (aF dR mR : List ViewField) (folds : List String)
    (kf vfld : ViewField)
    (hk : dR.find? (fun x => x.fid = MEA_KEY_ID) = some kf)
    (hv : mR.find? (fun x => x.fid = MEA_VAL_ID) = some vfld) :
    (∀ x, x ∈ viewDimensionsOf aF dR mR folds ↔
      ((x ∈ dR ∧ x.fid ≠ MEA_KEY_ID) ∨
       (x ∈ foldNewFields aF folds vfld.aggName ∧
        x.analyticType = AnalyticType.dimension))) ∧
    (∀ x, x ∈ viewMeasuresOf aF dR mR folds ↔
      ((x ∈ mR ∧ x.fid ≠ MEA_VAL_ID) ∨
       (x ∈ foldNewFields aF folds vfld.aggName ∧
        x.analyticType = AnalyticType.measure))) ∧
    (∀ k x, k ∈ folds → (aF.find? fun f => f.fid = k) = some x →
      { x with aggName := vfld.aggName } ∈ foldNewFields aF folds vfld.aggName) ∧
    (∀ y, y ∈ foldNewFields aF folds vfld.aggName → y.aggName = vfld.aggName) := by
  have hagg : foldAggName dR mR = some vfld.aggName := by
    unfold foldAggName
    rw [hk, hv]
  refine ⟨?_, ?_, ?_, ?_⟩
  · intro x
    unfold viewDimensionsOf
    rw [hagg]
    simp [List.mem_append, List.mem_filter]
  · intro x
    unfold viewMeasuresOf
    rw [hagg]
    simp [List.mem_append, List.mem_filter]
  · intro k x hkf hfind
    exact List.mem_map_of_mem _ (List.mem_filterMap.mpr ⟨k, hkf, hfind⟩)
  · intro y hy
    unfold foldNewFields at hy
    rcases List.mem_map.mp hy with ⟨x, hx, rfl⟩
    rfl

/-- Witness for C9 at §8's fold example (`revenue` a measure, `cost` a
dimension, sentinel aggregation `sum`). -/
theorem toWorkflow_fold_expansion_witness :
    ({ revenueF with aggName := some "sum" } ∈
      viewMeasuresOf allFdemo [kSent] [vSent] ["revenue", "cost"]) ∧
    ({ costF with aggName := some "sum" } ∈
      viewDimensionsOf allFdemo [kSent] [vSent] ["revenue", "cost"]) ∧
    ({ revenueF with aggName := some "sum" } : ViewField).aggName = some "sum" := by
  have h := toWorkflow_fold_expansion allFdemo [kSent] [vSent] ["revenue", "cost"]
    kSent vSent rfl rfl
  have hrev : { revenueF with aggName := vSent.aggName } ∈
      foldNewFields allFdemo ["revenue", "cost"] vSent.aggName :=
    h.2.2.1 "revenue" revenueF (by simp) rfl
  have hcost : { costF with aggName := vSent.aggName } ∈
      foldNewFields allFdemo ["revenue", "cost"] vSent.aggName :=
    h.2.2.1 "cost" costF (by simp) rfl
  refine ⟨?_, ?_, rfl⟩
  · exact (h.2.1 _).mpr (Or.inr ⟨hrev, rfl⟩)
  · exact (h.1 _).mpr (Or.inr ⟨hcost, rfl⟩)

/-! ### C10: sentinel identifiers and the view step -/

theorem mem_mapSet {α : Type} {m : List (String × α)} {k : String} {v : α}
    {p : String × α} (h : p ∈ mapSet m k v) : p = (k, v) ∨ p ∈ m := by
  unfold mapSet at h
  split at h
  · rcases List.mem_map.mp h with ⟨q, hq, hfq⟩
    by_cases hqk : q.1 = k
    · rw [if_pos hqk] at hfq
      exact Or.inl hfq.symm
    · rw [if_neg hqk] at hfq
      exact Or.inr (hfq ▸ hq)
  · rcases List.mem_append.mp h with h1 | h2
    · exact Or.inr h1
    · exact Or.inl (List.mem_singleton.mp h2)

theorem mem_foldl_mapSet {α : Type} (keyF : α → String) (items : List α) :
    ∀ (acc : List (String × α)) (p : String × α),
      p ∈ items.foldl (fun m x => mapSet m (keyF x) x) acc → p ∈ acc ∨ p.2 ∈ items := by
  induction items with
  | nil => intro acc p h; exact Or.inl h
  | cons x xs ih =>
    intro acc p h
    rw [List.foldl_cons] at h
    rcases ih _ p h with hacc | hxs
    · rcases mem_mapSet hacc with hpx | hpacc
      · subst hpx
        exact Or.inr (List.mem_cons_self _ _)
      · exact Or.inl hpacc
    · exact Or.inr (List.mem_cons_of_mem _ hxs)

/-- Every value returned by `deduper` is one of the input items. -/
theorem mem_deduper {α : Type} {items : List α} {keyF : α → String} {a : α}
    (h : a ∈ deduper items keyF) : a ∈ items := by
  unfold deduper at h
  rcases List.mem_map.mp h with ⟨p, hp, rfl⟩
  rcases mem_foldl_mapSet keyF items [] p hp with h0 | h1
  · exact absurd h0 (List.not_mem_nil p)
  · exact h1

/-- Every element kept by the raw-view de-duplication is an input element. -/
theorem mem_dedupRefLike {xs : List ViewField} {a : ViewField}
    (h : a ∈ dedupRefLike xs) : a ∈ xs := by
  unfold dedupRefLike at h
  have haux : ∀ (ys : List ViewField) (acc : List ViewField),
      a ∈ ys.foldl
        (fun acc x => if acc.any (fun y => beqViewField y x) then acc else acc ++ [x]) acc →
      a ∈ acc ∨ a ∈ ys := by
    intro ys
    induction ys with
    | nil => intro acc h'; exact Or.inl h'
    | cons x l ih =>
      intro acc h'
      rw [List.foldl_cons] at h'
      rcases ih _ h' with hacc | hl
      · split at hacc
        · exact Or.inl hacc
        · rcases List.mem_append.mp hacc with h1 | h2
          · exact Or.inl h1
          · rw [List.mem_singleton.mp h2]
            exact Or.inr (List.mem_cons_self _ _)
      · exact Or.inr (List.mem_cons_of_mem _ hl)
  rcases haux xs [] h with h0 | h1
  · exact absurd h0 (List.not_mem_nil a)
  · exact h1

/-- A fold clone's identifier comes from the known-field pool. -/
theorem fid_mem_foldNewFields {aF : List ViewField} {folds : List String}
    {agg : Option String} {y : ViewField} (hy : y ∈ foldNewFields aF folds agg) :
    ∃ x ∈ aF, y.fid = x.fid := by
  unfold foldNewFields at hy
  rcases List.mem_map.mp hy with ⟨x, hx, rfl⟩
  rcases List.mem_filterMap.mp hx with ⟨k, _, hfind⟩
  exact ⟨x, List.mem_of_find?_eq_some hfind, rfl⟩

/-- C10 (amended): each sentinel is removed from its own list
unconditionally, so — provided the opposite list, the known-field pool and
the filters do not themselves carry a sentinel identifier — neither
sentinel appears in the view step's group-by list, measure list or raw
field list.  (Without that proviso a sentinel can re-enter, e.g. the
folded-value id placed in the dimension list reaches the group-by list.) -/
theorem toWorkflow_sentinel_free_amended (vflt : List IFilterField)
    (aF dR mR : List ViewField) (folds : List String) (agg : Bool)
    (hD : ∀ x ∈ dR, x.fid ≠ MEA_VAL_ID)
    (hM : ∀ x ∈ mR, x.fid ≠ MEA_KEY_ID)
    (hA : ∀ x ∈ aF, x.fid ≠ MEA_KEY_ID ∧ x.fid ≠ MEA_VAL_ID)
    (hF : ∀ f ∈ vflt, f.fid ≠ MEA_KEY_ID ∧ f.fid ≠ MEA_VAL_ID) :
    (∀ x ∈ viewDimensionsOf aF dR mR folds, x.fid ≠ MEA_KEY_ID ∧ x.fid ≠ MEA_VAL_ID) ∧
    (∀ x ∈ viewMeasuresOf aF dR mR folds, x.fid ≠ MEA_KEY_ID ∧ x.fid ≠ MEA_VAL_ID) ∧
    (∀ gb ms, viewQueryWorkflowOf vflt aF dR mR folds agg =
        .view [.aggregate gb ms] →
      ((MEA_KEY_ID ∉ gb ∧ MEA_VAL_ID ∉ gb) ∧
       ∀ m ∈ ms, m.field ≠ MEA_KEY_ID ∧ m.field ≠ MEA_VAL_ID)) ∧
    (∀ fl, viewQueryWorkflowOf vflt aF dR mR folds agg = .view [.raw fl] →
      MEA_KEY_ID ∉ fl ∧ MEA_VAL_ID ∉ fl) := by
  have hDim : ∀ x ∈ viewDimensionsOf aF dR mR folds,
      x.fid ≠ MEA_KEY_ID ∧ x.fid ≠ MEA_VAL_ID := by
    intro x hx
    unfold viewDimensionsOf at hx
    cases hfold : foldAggName dR mR with
    | none =>
      simp only [hfold] at hx
      rcases List.mem_filter.mp hx with ⟨hxd, hxk⟩
      rw [decide_eq_true_eq] at hxk
      exact ⟨hxk, hD x hxd⟩
    | some a =>
      simp only [hfold] at hx
      rcases List.mem_append.mp hx with h1 | h2
      · rcases List.mem_filter.mp h1 with ⟨hxd, hxk⟩
        rw [decide_eq_true_eq] at hxk
        exact ⟨hxk, hD x hxd⟩
      · have hy := (List.mem_filter.mp h2).1
        rcases fid_mem_foldNewFields hy with ⟨z, hz, hfz⟩
        rw [hfz]
        exact hA z hz
  have hMea : ∀ x ∈ viewMeasuresOf aF dR mR folds,
      x.fid ≠ MEA_KEY_ID ∧ x.fid ≠ MEA_VAL_ID := by
    intro x hx
    unfold viewMeasuresOf at hx
    cases hfold : foldAggName dR mR with
    | none =>
      simp only [hfold] at hx
      rcases List.mem_filter.mp hx with ⟨hxm, hxk⟩
      rw [decide_eq_true_eq] at hxk
      exact ⟨hM x hxm, hxk⟩
    | some a =>
      simp only [hfold] at hx
      rcases List.mem_append.mp hx with h1 | h2
      · rcases List.mem_filter.mp h1 with ⟨hxm, hxk⟩
        rw [decide_eq_true_eq] at hxk
        exact ⟨hM x hxm, hxk⟩
      · have hy := (List.mem_filter.mp h2).1
        rcases fid_mem_foldNewFields hy with ⟨z, hz, hfz⟩
        rw [hfz]
        exact hA z hz
  refine ⟨hDim, hMea, ?_, ?_⟩
  · intro gb ms hstep
    unfold viewQueryWorkflowOf at hstep
    split at hstep
    · simp only [WorkflowStep.view.injEq, List.cons.injEq, and_true,
        ViewQuery.aggregate.injEq] at hstep
      obtain ⟨hgb, hms⟩ := hstep
      subst hgb
      subst hms
      refine ⟨⟨?_, ?_⟩, ?_⟩
      · intro hmem
        rcases List.mem_map.mp (mem_deduper hmem) with ⟨x, hx, hfx⟩
        exact (hDim x hx).1 hfx
      · intro hmem
        rcases List.mem_map.mp (mem_deduper hmem) with ⟨x, hx, hfx⟩
        exact (hDim x hx).2 hfx
      · intro m hm
        rcases List.mem_append.mp (mem_deduper hm) with h1 | h2
        · rcases List.mem_map.mp h1 with ⟨f, hf, rfl⟩
          exact hMea f hf
        · rcases List.mem_map.mp h2 with ⟨f, hf, rfl⟩
          unfold aggergatedFilterOf at hf
          exact hF f (List.mem_filter.mp hf).1
    · simp at hstep
  · intro fl hstep
    unfold viewQueryWorkflowOf at hstep
    split at hstep
    · simp at hstep
    · simp only [WorkflowStep.view.injEq, List.cons.injEq, and_true,
        ViewQuery.raw.injEq] at hstep
      subst hstep
      constructor
      · intro hmem
        rcases List.mem_map.mp hmem with ⟨x, hx, hfx⟩
        rcases List.mem_append.mp (mem_dedupRefLike hx) with h1 | h2
        · exact (hDim x h1).1 hfx
        · exact (hMea x h2).1 hfx
      · intro hmem
        rcases List.mem_map.mp hmem with ⟨x, hx, hfx⟩
        rcases List.mem_append.mp (mem_dedupRefLike hx) with h1 | h2
        · exact (hDim x h1).2 hfx
        · exact (hMea x h2).2 hfx

/-- Witness for C10's amended statement on a benign input. -/
theorem toWorkflow_sentinel_free_amended_witness :
    MEA_VAL_ID ∉ (["d"] : List String) ∧
    (⟨"m", some "sum", "m_sum"⟩ : MeasureSpec).field ≠ MEA_VAL_ID := by
  have h := (toWorkflow_sentinel_free_amended [] [] [dOk] [mOk] [] true
    (by intro x hx; rw [List.mem_singleton] at hx; subst hx; decide)
    (by intro x hx; rw [List.mem_singleton] at hx; subst hx; decide)
    (by intro x hx; exact absurd hx (List.not_mem_nil x))
    (by intro f hf; exact absurd hf (List.not_mem_nil f))).2.2.1
    ["d"] [⟨"m", some "sum", "m_sum"⟩] rfl
  exact ⟨h.1.2, (h.2 _ (List.mem_singleton.mpr rfl)).2⟩

/-- C10, as stated, is false: placing a field whose identifier is the
folded-value sentinel in the dimension list (with an empty measure list and
aggregation enabled) puts that sentinel identifier straight into the view
step's group-by list. -/
theorem sentinel_in_groupby_counterexample :
    toWorkflow [] [] [dSentVal] [] true SortDir.none [] Option.none =
      [.view [.aggregate [MEA_VAL_ID] []]] ∧
    MEA_VAL_ID ∈ ([MEA_VAL_ID] : List String) :=
  ⟨rfl, List.mem_singleton.mpr rfl⟩
